import Mathlib

/-!
Verification development for the retrieval-grounded generation pipeline in
`src/rag.py` (chunking, search-term extraction, context retrieval with
deduplication, and the grounded blog generator with length control).

Python strings are modelled as Lean `String`; the Python whitespace split
`str.split()` is modelled by `pySplit`, `str.split(sep)` by `pySplitOn`,
`str.strip()` by `pyStrip`, `str.lower()` by `pyLower`, and slicing
`s[:n]` by `pyTake`.  The external generation capability is an oracle
`gen : String -> Nat -> String` taking the prompt and `max_new_tokens`;
the external search capability is an oracle returning either an error or
a list of hits, a hit being `some content` when its source has a
`content` field and `none` otherwise.
-/

/-- Python `str.split()` helper: flush the token accumulated so far. -/
def flushTok (acc : List Char) : List (List Char) :=
  if acc = [] then [] else [acc]

/-- Python `str.split()` on a list of characters: accumulate maximal runs
of non-whitespace characters, dropping all whitespace. -/
def tokAux : List Char → List Char → List (List Char)
  | [], acc => flushTok acc
  | c :: cs, acc =>
    if c.isWhitespace then flushTok acc ++ tokAux cs []
    else tokAux cs (acc ++ [c])

/-- Python `str.split()` (no separator argument) on a list of characters. -/
def tokenize (xs : List Char) : List (List Char) := tokAux xs []

/-- Python `str.split()` : split a string on whitespace, dropping empty
tokens. -/
def pySplit (s : String) : List String :=
  (tokenize s.data).map (fun t => String.mk t)

theorem tokAux_append_space (ys : List Char) :
    ∀ (xs acc : List Char),
      tokAux (xs ++ ' ' :: ys) acc = tokAux xs acc ++ tokAux ys [] := by
  intro xs
  induction xs with
  | nil =>
    intro acc
    simp [tokAux, flushTok]
  | cons c cs ih =>
    intro acc
    by_cases hc : c.isWhitespace
    · simp [tokAux, hc, ih]
    · simp [tokAux, hc, ih]

theorem tokAux_nonws_prefix :
    ∀ (t : List Char), (∀ c ∈ t, c.isWhitespace = false) →
      ∀ (rest acc : List Char), tokAux (t ++ rest) acc = tokAux rest (acc ++ t) := by
  intro t
  induction t with
  | nil => intro _ rest acc; simp
  | cons c cs ih =>
    intro h rest acc
    have hc : c.isWhitespace = false := h c (by simp)
    have hcs : ∀ x ∈ cs, x.isWhitespace = false := fun x hx => h x (by simp [hx])
    simp only [List.cons_append, tokAux, hc]
    rw [if_neg (by simp [hc])]
    simp only [List.append_eq]
    rw [ih hcs rest (acc ++ [c])]
    simp

theorem tokenize_single (t : List Char) (hne : t ≠ [])
    (hws : ∀ c ∈ t, c.isWhitespace = false) : tokenize t = [t] := by
  have := tokAux_nonws_prefix t hws [] []
  simp only [List.append_nil, List.nil_append] at this
  simp [tokenize, this, tokAux, flushTok, hne]

theorem tokAux_tokens_good :
    ∀ (xs acc : List Char), (∀ c ∈ acc, c.isWhitespace = false) →
      ∀ t ∈ tokAux xs acc, t ≠ [] ∧ ∀ c ∈ t, c.isWhitespace = false := by
  intro xs
  induction xs with
  | nil =>
    intro acc hacc t ht
    simp only [tokAux, flushTok] at ht
    split at ht
    · simp at ht
    · rename_i hne
      simp at ht
      subst ht
      exact ⟨hne, hacc⟩
  | cons c cs ih =>
    intro acc hacc t ht
    by_cases hc : c.isWhitespace
    · simp only [tokAux, hc, if_pos, flushTok] at ht
      rcases List.mem_append.mp ht with h1 | h2
      · split at h1
        · simp at h1
        · rename_i hne
          simp at h1
          subst h1
          exact ⟨hne, hacc⟩
      · exact ih [] (by simp) t h2
    · simp only [tokAux, hc] at ht
      rw [if_neg (by simp [hc])] at ht
      refine ih (acc ++ [c]) ?_ t ht
      intro x hx
      rcases List.mem_append.mp hx with h1 | h2
      · exact hacc x h1
      · simp at h2
        subst h2
        simp at hc
        exact hc

theorem tokenize_tokens_good (xs : List Char) :
    ∀ t ∈ tokenize xs, t ≠ [] ∧ ∀ c ∈ t, c.isWhitespace = false :=
  tokAux_tokens_good xs [] (by simp)

theorem tokenize_append_space (xs ys : List Char) :
    tokenize (xs ++ ' ' :: ys) = tokenize xs ++ tokenize ys :=
  tokAux_append_space ys xs []

/-- Python `" ".join(parts)` (and `"\n".join(parts)`): interleave the
separator between the parts. -/
def joinSep (sep : String) : List String → String
  | [] => ""
  | [w] => w
  | w :: ws => w ++ sep ++ joinSep sep ws

/-- Character-level counterpart of `joinSep " "`, used to relate joining
and tokenizing. -/
def joinCh : List (List Char) → List Char
  | [] => []
  | [t] => t
  | t :: ts => t ++ ' ' :: joinCh ts

theorem joinSep_space_data :
    ∀ ws : List String, (joinSep " " ws).data = joinCh (ws.map String.data)
  | [] => rfl
  | [w] => rfl
  | w :: x :: ws => by
    show (w ++ " " ++ joinSep " " (x :: ws)).data = w.data ++ ' ' :: joinCh ((x :: ws).map String.data)
    rw [String.data_append, String.data_append, joinSep_space_data (x :: ws)]
    simp

theorem tokenize_joinCh :
    ∀ ts : List (List Char),
      (∀ t ∈ ts, t ≠ [] ∧ ∀ c ∈ t, c.isWhitespace = false) →
      tokenize (joinCh ts) = ts
  | [], _ => rfl
  | [t], h => tokenize_single t (h t (by simp)).1 (h t (by simp)).2
  | t :: x :: ts, h => by
    show tokenize (t ++ ' ' :: joinCh (x :: ts)) = t :: x :: ts
    rw [tokenize_append_space,
        tokenize_single t (h t (by simp)).1 (h t (by simp)).2,
        tokenize_joinCh (x :: ts) (fun u hu => h u (by simp [hu]))]
    rfl

theorem pySplit_tokens_good (s : String) :
    ∀ w ∈ pySplit s, w ≠ "" ∧ ∀ c ∈ w.data, c.isWhitespace = false := by
  intro w hw
  simp only [pySplit, List.mem_map] at hw
  obtain ⟨t, ht, rfl⟩ := hw
  obtain ⟨h1, h2⟩ := tokenize_tokens_good s.data t ht
  refine ⟨?_, h2⟩
  intro hcon
  apply h1
  have : (String.mk t).data = ("" : String).data := by rw [hcon]
  simpa using this

theorem pySplit_joinSep (ws : List String)
    (h : ∀ w ∈ ws, w ≠ "" ∧ ∀ c ∈ w.data, c.isWhitespace = false) :
    pySplit (joinSep " " ws) = ws := by
  have hgood : ∀ t ∈ ws.map String.data, t ≠ [] ∧ ∀ c ∈ t, c.isWhitespace = false := by
    intro t ht
    simp only [List.mem_map] at ht
    obtain ⟨w, hw, rfl⟩ := ht
    obtain ⟨h1, h2⟩ := h w hw
    refine ⟨?_, h2⟩
    intro hcon
    apply h1
    apply String.ext
    simpa using hcon
  simp only [pySplit, joinSep_space_data, tokenize_joinCh (ws.map String.data) hgood]
  rw [List.map_map]
  have : (String.mk ∘ String.data) = id := by
    funext s
    rfl
  simp [this]

theorem pySplit_append_space (a b : String) :
    pySplit (a ++ " " ++ b) = pySplit a ++ pySplit b := by
  simp only [pySplit, String.data_append]
  have : a.data ++ " ".data ++ b.data = a.data ++ ' ' :: b.data := by simp
  rw [this, tokenize_append_space, List.map_append]

theorem pySplit_empty : pySplit "" = [] := rfl

/-- Length of a single-space join: the first part is a prefix, so the
join is at least as long as any leading part. -/
theorem joinSep_space_length_ge (x : String) (r : List String) :
    x.length ≤ (joinSep " " (x :: r)).length := by
  cases r with
  | nil => simp [joinSep]
  | cons y ys =>
    show x.length ≤ (x ++ " " ++ joinSep " " (y :: ys)).length
    simp only [String.length_append]
    omega

/-- Weight of a token list: each token costs its length plus one
separator, mirroring `word_size = len(word) + 1` in `chunk_text`. -/
def tokWeight (g : List String) : Nat := (g.map (fun w => w.length + 1)).sum

theorem joinSep_space_length :
    ∀ g : List String, g ≠ [] → (joinSep " " g).length + 1 = tokWeight g
  | [], h => absurd rfl h
  | [w], _ => by simp [joinSep, tokWeight]
  | w :: x :: xs, _ => by
    show (w ++ " " ++ joinSep " " (x :: xs)).length + 1 = tokWeight (w :: x :: xs)
    have ih := joinSep_space_length (x :: xs) (by simp)
    have hsep : (" " : String).length = 1 := rfl
    simp only [tokWeight, List.map_cons, List.sum_cons] at ih ⊢
    simp only [String.length_append, hsep]
    omega

/-- Loop body of `chunk_text` (src/rag.py lines 82-95) written as
recursion over the word list.  The three arguments after the word list
are the Python loop state: the completed chunks are emitted in order at
the head, `current_chunk` is the token accumulator and `current_size`
the running size; a closed chunk is started again from the word that
overflowed, and a non-empty trailing accumulator is flushed at the end. -/
def chunkLoop (chunk_size : Nat) : List String → List String → Nat → List (List String)
  | [], current_chunk, _ =>
    if current_chunk = [] then [] else [current_chunk]
  | word :: ws, current_chunk, current_size =>
    if current_size + (word.length + 1) > chunk_size then
      current_chunk :: chunkLoop chunk_size ws [word] (word.length + 1)
    else
      chunkLoop chunk_size ws (current_chunk ++ [word]) (current_size + (word.length + 1))

/-- Embedding of `chunk_text` (src/rag.py lines 76-95): split the text on
whitespace, accumulate words into chunks of bounded character size
(each word costing `len(word) + 1`), and join each chunk with single
spaces.  The Python default for `chunk_size` is 1000. -/
def chunk_text (text : String) (chunk_size : Nat) : List String :=
  (chunkLoop chunk_size (pySplit text) [] 0).map (fun g => joinSep " " g)

/-- Stop-word set of `extract_search_terms` (src/rag.py line 98). -/
def common_words : List String :=
  ["and", "or", "the", "a", "an", "in", "on", "at", "to", "for", "of",
   "with", "by", "about", "explain", "me"]

/-- Python `str.lower()`: lowercase every character (the source topics
are ASCII, where `Char.toLower` agrees with Python). -/
def pyLower (s : String) : String := String.mk (s.data.map Char.toLower)

/-- Embedding of `extract_search_terms` (src/rag.py lines 97-100):
lowercase the topic, split on whitespace, and keep the tokens that are
not stop words. -/
def extract_search_terms (topic : String) : List String :=
  (pySplit (pyLower topic)).filter (fun term => !common_words.contains term)

/-- Python character slice `s[:n]`. -/
def pyTake (s : String) (n : Nat) : String := String.mk (s.data.take n)

/-- Python `str.strip()`: drop leading and trailing whitespace. -/
def pyStrip (s : String) : String :=
  String.mk (((s.data.dropWhile Char.isWhitespace).reverse.dropWhile Char.isWhitespace).reverse)

/-- Python substring test `needle in hay` on character lists. -/
def containsSub (needle : List Char) : List Char → Bool
  | [] => needle.isEmpty
  | c :: cs => needle.isPrefixOf (c :: cs) || containsSub needle cs

/-- Python `hay.split(sep)` on character lists, via fuel (the fuel is the
length of the input, which bounds the number of steps; the separator is
never empty where this is used).  Scanning is left to right and
non-overlapping, exactly as in Python. -/
def splitOnAux (sep : List Char) : Nat → List Char → List Char → List (List Char)
  | 0, xs, acc => [acc ++ xs]
  | fuel + 1, xs, acc =>
    match xs with
    | [] => [acc]
    | c :: cs =>
      if sep.isPrefixOf (c :: cs) then
        acc :: splitOnAux sep fuel ((c :: cs).drop sep.length) []
      else
        splitOnAux sep fuel cs (acc ++ [c])

/-- Python `hay.split(sep)` on character lists. -/
def pySplitOn (sep xs : List Char) : List (List Char) :=
  splitOnAux sep xs.length xs []

/-- Sentinel token the generator must emit when the context cannot
ground the topic (src/rag.py lines 157 and 185). -/
def sentinel : String := "INSUFFICIENT_CONTEXT"

/-- Closing instruction marker of the generation prompt; the echo of the
prompt up to its last occurrence is stripped from the raw output
(src/rag.py line 188). -/
def promptMarker : String := "Write the blog post:"

/-- The strict generation prompt of `generate_blog_content`
(src/rag.py lines 156-171), with the context text truncated to 2000
characters. -/
def strict_prompt (topic context_text : String) (target_words : Nat) : String :=
  "Based on ONLY the following context information, write about " ++ topic ++ ".\n" ++
  "If you cannot find enough relevant information in the context, respond with \x27INSUFFICIENT_CONTEXT\x27.\n" ++
  "\nCONTEXT:\n" ++ pyTake context_text 2000 ++ "\n" ++
  "\nRULES:\n1. Use ONLY information from the context\n2. Do not add external knowledge\n" ++
  "3. Write exactly " ++ toString target_words ++ " words\n4. Include technical details from context\n" ++
  "5. Be specific and accurate\n6. No general statements\n7. Focus on factual content\n" ++
  "\n" ++ promptMarker

/-- The continuation prompt of `generate_blog_content`
(src/rag.py lines 195-197). -/
def continuation_prompt (blog_content : String) (remaining : Nat) : String :=
  "Continue using ONLY the original context. DO NOT add new information.\n" ++
  "Previous content: " ++ blog_content ++ "\n" ++
  "Continue for " ++ toString remaining ++ " more words:"

/-- Post-processing of the raw generator output (src/rag.py line 188):
`blog_content.split("Write the blog post:")[-1].strip()`. -/
def clean_output (response : String) : String :=
  pyStrip (String.mk ((pySplitOn promptMarker.data response.data).getLastD []))

/-- Errors `generate_blog_content` raises (both are `ValueError` in the
source, distinguished by message: "No relevant context available" and
"Insufficient context available for topic: ..."). -/
inductive GenError where
  | noContext : GenError
  | insufficientContext : String → GenError
deriving DecidableEq

deriving instance DecidableEq for Except

/-- Embedding of `generate_blog_content` (src/rag.py lines 149-207).
The generation capability is the oracle `gen`, applied to a prompt and
the `max_new_tokens` bound; sampling parameters are fixed in the source
and do not affect the data flow.  The second component of the result
records the generator invocations (prompt and token budget) in order, so
that call counts are part of the model.  The steps mirror the source:
reject empty context; build the strict prompt over the newline-joined
context; call the generator once with budget 1500; abort with the
insufficient-context error if the sentinel occurs anywhere in the raw
output; otherwise strip the prompt echo and surrounding whitespace,
then truncate to `target_words` tokens if over, or run exactly one
continuation round (budget `remaining * 2`) and truncate the
concatenation if under, or return the cleaned text unchanged. -/
def generate_blog_content (gen : String → Nat → String) (topic : String)
    (context : List String) (target_words : Nat) :
    Except GenError String × List (String × Nat) :=
  if context = [] then (Except.error GenError.noContext, [])
  else
    let p := strict_prompt topic (joinSep "\n" context) target_words
    let response := gen p 1500
    if containsSub sentinel.data response.data then
      (Except.error (GenError.insufficientContext topic), [(p, 1500)])
    else
      let blog_content := clean_output response
      let words := pySplit blog_content
      if words.length > target_words then
        (Except.ok (joinSep " " (words.take target_words)), [(p, 1500)])
      else if words.length < target_words then
        let remaining := target_words - words.length
        let cp := continuation_prompt blog_content remaining
        let additional := gen cp (remaining * 2)
        (Except.ok (joinSep " " ((pySplit (blog_content ++ " " ++ additional)).take target_words)),
         [(p, 1500), (cp, remaining * 2)])
      else
        (Except.ok blog_content, [(p, 1500)])

/-- The strict prompt as issued by `generate_blog_content` for a given
context list. -/
def first_prompt (topic : String) (context : List String) (target_words : Nat) : String :=
  strict_prompt topic (joinSep "\n" context) target_words

/-- Raw first-pass generator output of `generate_blog_content`. -/
def raw_output (gen : String → Nat → String) (topic : String)
    (context : List String) (target_words : Nat) : String :=
  gen (first_prompt topic context target_words) 1500

/-- Cleaned first-pass generator output of `generate_blog_content`
(prompt echo stripped, whitespace trimmed). -/
def cleaned_output (gen : String → Nat → String) (topic : String)
    (context : List String) (target_words : Nat) : String :=
  clean_output (raw_output gen topic context target_words)

/-- Continuation output of `generate_blog_content` when the cleaned
first pass is short of the target. -/
def cont_output (gen : String → Nat → String) (topic : String)
    (context : List String) (target_words : Nat) : String :=
  gen (continuation_prompt (cleaned_output gen topic context target_words)
        (target_words - (pySplit (cleaned_output gen topic context target_words)).length))
      ((target_words - (pySplit (cleaned_output gen topic context target_words)).length) * 2)

/-- Embedding of `get_relevant_context` (src/rag.py lines 102-147).  The
ranked-search capability is the oracle `search`, applied to the topic
and result limit that parameterize the query body built in the source; a
hit is `some content` when its `_source` carries a `content` field,
`none` otherwise.  The source wraps the whole body in try/except and
returns the empty list on any search error; on success it keeps, in rank
order, the `content` of every hit that has one and skips the rest. -/
def get_relevant_context (search : String → Nat → Except String (List (Option String)))
    (topic : String) (limit : Nat) : List String :=
  match search topic limit with
  | Except.error _ => []
  | Except.ok hits => hits.filterMap (fun h => h)

/-- One step of `list(dict.fromkeys(...))` (src/rag.py line 273): append
the element unless it is already present. -/
def dedupAppend (acc : List String) (x : String) : List String :=
  if x ∈ acc then acc else acc ++ [x]

/-- Embedding of `list(dict.fromkeys(all_context))` (src/rag.py line
273): insertion-ordered deduplication. -/
def dict_fromkeys (l : List String) : List String :=
  List.foldl dedupAppend [] l

/-- Modelled from the spec: stable deduplication keeps each distinct
value exactly once, at the position of its first appearance; later
duplicates of the head are filtered away before recursing.  This is the
spec-side definition against which `dict_fromkeys` is compared. -/
def stableDedupSpec : List String → List String
  | [] => []
  | x :: xs => x :: stableDedupSpec (xs.filter (fun y => y != x))
termination_by l => l.length
decreasing_by
  simp only [List.length_cons]
  exact Nat.lt_succ_of_le (List.length_filter_le _ _)

/-- Aggregated, deduplicated context built by `create_blog`
(src/rag.py lines 266-273): per-term retrieval results concatenated in
term order, then deduplicated preserving first occurrences.  The
per-term limit is the source default of 5. -/
def aggregate_context (search : String → Nat → Except String (List (Option String)))
    (topic : String) : List String :=
  dict_fromkeys (((extract_search_terms topic).map
    (fun term => get_relevant_context search term 5)).flatten)

/-- Outcome of the `create_blog` route (src/rag.py lines 257-322):
`noContext` is the 404 response "No relevant information found",
`insufficient` the 404 response "Insufficient context", `created` the
201 response carrying the content, its word count and the number of
source passages, and `serverError` the 500 response of the outer
exception handler. -/
inductive CreateResult where
  | noContext : CreateResult
  | insufficient : CreateResult
  | created : String → Nat → Nat → CreateResult
  | serverError : CreateResult
deriving DecidableEq

/-- Embedding of the generation path of `create_blog` (src/rag.py lines
257-322), from the extracted topic onward (request parsing and
persistence of the finished artifact are external collaborators).  The
word count persisted with the blog is `len(blog_content.split())` and
the source-document count is the length of the aggregated context.  A
`ValueError` whose message carries "Insufficient context" becomes the
404 insufficient response; the empty-context `ValueError` message does
not match and would be re-raised to the 500 handler.  The second
component again records the generator invocations. -/
def create_blog (search : String → Nat → Except String (List (Option String)))
    (gen : String → Nat → String) (topic : String) :
    CreateResult × List (String × Nat) :=
  let all_context := aggregate_context search topic
  if all_context = [] then (CreateResult.noContext, [])
  else
    match generate_blog_content gen topic all_context 800 with
    | (Except.error (GenError.insufficientContext _), calls) => (CreateResult.insufficient, calls)
    | (Except.error GenError.noContext, calls) => (CreateResult.serverError, calls)
    | (Except.ok blog_content, calls) =>
      (CreateResult.created blog_content (pySplit blog_content).length all_context.length, calls)

theorem chunkLoop_flatten (k : Nat) :
    ∀ (ws cur : List String) (size : Nat),
      (chunkLoop k ws cur size).flatten = cur ++ ws := by
  intro ws
  induction ws with
  | nil =>
    intro cur size
    by_cases h : cur = []
    · simp [chunkLoop, h]
    · simp [chunkLoop, h]
  | cons w ws ih =>
    intro cur size
    by_cases h : size + (w.length + 1) > k
    · simp [chunkLoop, h, ih]
    · simp [chunkLoop, h, ih]

theorem chunkLoop_groups_nonempty (k : Nat) :
    ∀ (ws cur : List String) (size : Nat), cur ≠ [] →
      ∀ g ∈ chunkLoop k ws cur size, g ≠ [] := by
  intro ws
  induction ws with
  | nil =>
    intro cur size hcur g hg
    simp only [chunkLoop, if_neg hcur] at hg
    simp at hg
    subst hg
    exact hcur
  | cons w ws ih =>
    intro cur size hcur g hg
    by_cases h : size + (w.length + 1) > k
    · simp only [chunkLoop, if_pos h] at hg
      rcases List.mem_cons.mp hg with rfl | h2
      · exact hcur
      · exact ih [w] (w.length + 1) (by simp) g h2
    · simp only [chunkLoop, if_neg h] at hg
      exact ih (cur ++ [w]) (size + (w.length + 1)) (by simp) g hg

theorem chunkLoop_elems (k : Nat) :
    ∀ (ws cur : List String) (size : Nat),
      ∀ g ∈ chunkLoop k ws cur size, ∀ x ∈ g, x ∈ cur ∨ x ∈ ws := by
  intro ws
  induction ws with
  | nil =>
    intro cur size g hg x hx
    by_cases h : cur = []
    · simp [chunkLoop, h] at hg
    · simp only [chunkLoop, if_neg h] at hg
      simp at hg
      subst hg
      exact Or.inl hx
  | cons w ws ih =>
    intro cur size g hg x hx
    by_cases h : size + (w.length + 1) > k
    · simp only [chunkLoop, if_pos h] at hg
      rcases List.mem_cons.mp hg with rfl | h2
      · exact Or.inl hx
      · rcases ih [w] (w.length + 1) g h2 x hx with h3 | h3
        · simp at h3
          subst h3
          simp
        · simp [h3]
    · simp only [chunkLoop, if_neg h] at hg
      rcases ih (cur ++ [w]) (size + (w.length + 1)) g hg x hx with h3 | h3
      · rcases List.mem_append.mp h3 with h4 | h4
        · exact Or.inl h4
        · simp at h4
          subst h4
          simp
      · simp [h3]

theorem chunkLoop_no_empty_group (k : Nat) :
    ∀ (ws cur : List String) (size : Nat),
      (∀ w ∈ ws, w.length + 1 ≤ k) → (cur = [] → size = 0) →
      ∀ g ∈ chunkLoop k ws cur size, g ≠ [] := by
  intro ws
  induction ws with
  | nil =>
    intro cur size _ _ g hg
    by_cases h : cur = []
    · simp [chunkLoop, h] at hg
    · simp only [chunkLoop, if_neg h] at hg
      simp at hg
      subst hg
      exact h
  | cons w ws ih =>
    intro cur size hws hinv g hg
    by_cases hcur : cur = []
    · have hsz : size = 0 := hinv hcur
      have : ¬ size + (w.length + 1) > k := by
        have := hws w (by simp)
        omega
      simp only [chunkLoop, if_neg this] at hg
      exact ih (cur ++ [w]) (size + (w.length + 1))
        (fun x hx => hws x (by simp [hx])) (by simp) g hg
    · by_cases h : size + (w.length + 1) > k
      · simp only [chunkLoop, if_pos h] at hg
        rcases List.mem_cons.mp hg with rfl | h2
        · exact hcur
        · exact ih [w] (w.length + 1) (fun x hx => hws x (by simp [hx])) (by simp) g h2
      · simp only [chunkLoop, if_neg h] at hg
        exact ih (cur ++ [w]) (size + (w.length + 1))
          (fun x hx => hws x (by simp [hx])) (by simp) g hg

theorem chunkLoop_size_bound (k : Nat) :
    ∀ (ws cur : List String) (size : Nat),
      size = tokWeight cur → (tokWeight cur ≤ k ∨ ∃ w, cur = [w]) →
      ∀ g ∈ chunkLoop k ws cur size, tokWeight g ≤ k ∨ ∃ w, g = [w] := by
  intro ws
  induction ws with
  | nil =>
    intro cur size _ hinv g hg
    by_cases h : cur = []
    · simp [chunkLoop, h] at hg
    · simp only [chunkLoop, if_neg h] at hg
      simp at hg
      subst hg
      exact hinv
  | cons w ws ih =>
    intro cur size hsz hinv g hg
    by_cases h : size + (w.length + 1) > k
    · simp only [chunkLoop, if_pos h] at hg
      rcases List.mem_cons.mp hg with rfl | h2
      · exact hinv
      · refine ih [w] (w.length + 1) (by simp [tokWeight]) (Or.inr ⟨w, rfl⟩) g h2
    · simp only [chunkLoop, if_neg h] at hg
      refine ih (cur ++ [w]) (size + (w.length + 1)) ?_ ?_ g hg
      · simp [tokWeight] at hsz ⊢
        omega
      · left
        have : tokWeight (cur ++ [w]) = tokWeight cur + (w.length + 1) := by
          simp [tokWeight]
        omega

/-- C3: for every input text and `max_chunk_chars` at least the longest
token length plus one, joining the chunks of `chunk_text` with single
spaces reproduces the whitespace-normalized input, that is, the tokens
of the input joined by single spaces. -/
theorem joinSep_space_append :
    ∀ (a b : List String), a ≠ [] → b ≠ [] →
      joinSep " " (a ++ b) = joinSep " " a ++ " " ++ joinSep " " b
  | [], _, ha, _ => absurd rfl ha
  | [w], b, _, hb => by
    cases b with
    | nil => exact absurd rfl hb
    | cons y ys => rfl
  | w :: x :: xs, b, _, hb => by
    have ih := joinSep_space_append (x :: xs) b (by simp) hb
    show (w ++ " " ++ joinSep " " ((x :: xs) ++ b)) =
      (w ++ " " ++ joinSep " " (x :: xs)) ++ " " ++ joinSep " " b
    rw [ih]
    simp [String.append_assoc]

theorem joinSep_space_flatten :
    ∀ G : List (List String), (∀ g ∈ G, g ≠ []) →
      joinSep " " (G.map (fun g => joinSep " " g)) = joinSep " " G.flatten
  | [], _ => rfl
  | [g], _ => by simp [joinSep]
  | g :: g2 :: G2, hne => by
    have hg : g ≠ [] := hne g (by simp)
    have hne' : ∀ x ∈ g2 :: G2, x ≠ [] := fun x hx => hne x (by simp [hx])
    have hflat2 : (g2 :: G2).flatten ≠ [] := by
      have h2 : g2 ≠ [] := hne' g2 (by simp)
      cases g2 with
      | nil => exact absurd rfl h2
      | cons y ys => simp
    calc joinSep " " ((g :: g2 :: G2).map (fun g => joinSep " " g))
        = joinSep " " g ++ " " ++ joinSep " " ((g2 :: G2).map (fun g => joinSep " " g)) := by
          simp only [List.map_cons]
          rfl
      _ = joinSep " " g ++ " " ++ joinSep " " (g2 :: G2).flatten := by
          rw [joinSep_space_flatten (g2 :: G2) hne']
      _ = joinSep " " ((g :: g2 :: G2).flatten) := by
          rw [List.flatten_cons]
          exact (joinSep_space_append g ((g2 :: G2).flatten) hg hflat2).symm

/-- C3: for every input text and `max_chunk_chars` at least the longest
token length plus one, joining the chunks of `chunk_text` with single
spaces reproduces the whitespace-normalized input, that is, the tokens
of the input joined by single spaces. -/
theorem chunk_text_roundtrip (text : String) (k : Nat)
    (H : ∀ w ∈ pySplit text, w.length + 1 ≤ k) :
    joinSep " " (chunk_text text k) = joinSep " " (pySplit text) := by
  unfold chunk_text
  have hne : ∀ g ∈ chunkLoop k (pySplit text) [] 0, g ≠ [] :=
    chunkLoop_no_empty_group k (pySplit text) [] 0 H (fun _ => rfl)
  have hflat : (chunkLoop k (pySplit text) [] 0).flatten = pySplit text := by
    simpa using chunkLoop_flatten k (pySplit text) [] 0
  rw [joinSep_space_flatten (chunkLoop k (pySplit text) [] 0) hne, hflat]

/-- C4 and C10 both need that an empty input yields no chunks. -/
theorem chunk_text_nil (text : String) (k : Nat) (h : pySplit text = []) :
    chunk_text text k = [] := by
  unfold chunk_text
  rw [h]
  rfl

theorem length_pos_of_ne_empty (s : String) (h : s ≠ "") : 0 < s.length := by
  have hd : s.data ≠ [] := by
    intro hcon
    apply h
    apply String.ext
    simpa using hcon
  have : s.length = s.data.length := rfl
  rw [this]
  exact List.length_pos.mpr hd

/-- Joined chunks built from non-empty groups of real tokens are
non-empty strings. -/
theorem joinSep_group_ne_empty (text : String) (g : List String)
    (hg : g ≠ []) (helems : ∀ x ∈ g, x ∈ pySplit text) :
    joinSep " " g ≠ "" := by
  cases g with
  | nil => exact absurd rfl hg
  | cons x r =>
    have hx : x ≠ "" := (pySplit_tokens_good text x (helems x (by simp))).1
    have hlen : 0 < x.length := length_pos_of_ne_empty x hx
    have hge := joinSep_space_length_ge x r
    intro hcon
    rw [hcon] at hge
    have h0 : ("" : String).length = 0 := rfl
    rw [h0] at hge
    omega

/-- C4: every chunk produced by `chunk_text` is at most
`max_chunk_chars` characters long, except a chunk that is a single
input token longer than the bound, which is emitted whole; the empty
input yields no chunks. -/
theorem chunk_text_size_bound (text : String) (k : Nat) :
    (∀ c ∈ chunk_text text k, c.length ≤ k ∨ (c ∈ pySplit text ∧ k < c.length)) ∧
    chunk_text "" k = [] := by
  constructor
  · intro c hc
    simp only [chunk_text, List.mem_map] at hc
    obtain ⟨g, hg, rfl⟩ := hc
    have hsb := chunkLoop_size_bound k (pySplit text) [] 0 (by simp [tokWeight])
      (Or.inl (by simp [tokWeight])) g hg
    rcases hsb with hw | ⟨w, rfl⟩
    · by_cases hge : g = []
      · subst hge
        left
        show (joinSep " " []).length ≤ k
        simp [joinSep]
      · left
        have := joinSep_space_length g hge
        omega
    · have hjw : joinSep " " [w] = w := rfl
      rw [hjw]
      by_cases hwl : w.length ≤ k
      · left
        exact hwl
      · right
        have hmem : w ∈ pySplit text := by
          rcases chunkLoop_elems k (pySplit text) [] 0 [w] hg w (by simp) with h | h
          · simp at h
          · exact h
        exact ⟨hmem, by omega⟩
  · exact chunk_text_nil "" k pySplit_empty

theorem chunkLoop_oversized_head (k : Nat) :
    ∀ (tl : List String) (w : String) (s : Nat), k < s →
      ∃ gs, chunkLoop k tl [w] s = [w] :: gs ∧
        ∀ g ∈ gs, g ≠ [] ∧ ∀ x ∈ g, x ∈ tl := by
  intro tl w s hs
  cases tl with
  | nil =>
    refine ⟨[], ?_, by simp⟩
    simp [chunkLoop]
  | cons w2 tl' =>
    have htrig : s + (w2.length + 1) > k := by omega
    refine ⟨chunkLoop k tl' [w2] (w2.length + 1), ?_, ?_⟩
    · simp [chunkLoop, htrig]
    · intro g hg
      refine ⟨chunkLoop_groups_nonempty k tl' [w2] (w2.length + 1) (by simp) g hg, ?_⟩
      intro x hx
      rcases chunkLoop_elems k tl' [w2] (w2.length + 1) g hg x hx with h | h
      · simp at h
        subst h
        simp
      · simp [h]

/-- C10: when the first whitespace token of the input is longer than
`max_chunk_chars - 1`, `chunk_text` first emits an empty-string chunk
and then the chunk holding exactly that token, and no other chunk is
empty; when the first token fits, no empty chunk appears at all; and an
empty token list produces no chunks. -/
theorem chunk_text_empty_chunk (text : String) (k : Nat) :
    (∀ w tl, pySplit text = w :: tl → k < w.length + 1 →
        ∃ rest, chunk_text text k = "" :: w :: rest ∧ "" ∉ (w :: rest)) ∧
    (∀ w tl, pySplit text = w :: tl → w.length + 1 ≤ k → "" ∉ chunk_text text k) ∧
    (pySplit text = [] → chunk_text text k = []) := by
  refine ⟨?_, ?_, chunk_text_nil text k⟩
  · intro w tl hsplit hbig
    have htrig : 0 + (w.length + 1) > k := by omega
    obtain ⟨gs, hgs, hprops⟩ :=
      chunkLoop_oversized_head k tl w (w.length + 1) (by omega)
    refine ⟨gs.map (fun g => joinSep " " g), ?_, ?_⟩
    · unfold chunk_text
      rw [hsplit]
      show (chunkLoop k (w :: tl) [] 0).map (fun g => joinSep " " g) = _
      have : chunkLoop k (w :: tl) [] 0 = [] :: chunkLoop k tl [w] (w.length + 1) := by
        simp [chunkLoop, hbig]
      rw [this, hgs]
      rfl
    · intro hcon
      rcases List.mem_cons.mp hcon with h | h
      · exact (pySplit_tokens_good text w (hsplit ▸ by simp)).1 h.symm
      · simp only [List.mem_map] at h
        obtain ⟨g, hg, hjoin⟩ := h
        obtain ⟨hne, helems⟩ := hprops g hg
        refine joinSep_group_ne_empty text g hne ?_ hjoin
        intro x hx
        rw [hsplit]
        simp [helems x hx]
  · intro w tl hsplit hle
    intro hcon
    have hstep : chunkLoop k (w :: tl) [] 0 = chunkLoop k tl [w] (w.length + 1) := by
      simp [chunkLoop, Nat.not_lt.mpr hle]
    unfold chunk_text at hcon
    rw [hsplit, hstep] at hcon
    simp only [List.mem_map] at hcon
    obtain ⟨g, hg, hjoin⟩ := hcon
    have hne := chunkLoop_groups_nonempty k tl [w] (w.length + 1) (by simp) g hg
    refine joinSep_group_ne_empty text g hne ?_ hjoin
    intro x hx
    rcases chunkLoop_elems k tl [w] (w.length + 1) g hg x hx with h | h
    · simp at h
      subst h
      rw [hsplit]
      simp
    · rw [hsplit]
      simp [h]

theorem generate_blog_content_nil_context (gen : String → Nat → String)
    (topic : String) (tw : Nat) :
    generate_blog_content gen topic [] tw = (Except.error GenError.noContext, []) := rfl

theorem generate_blog_content_sentinel_case (gen : String → Nat → String)
    (topic : String) (context : List String) (tw : Nat)
    (hne : context ≠ [])
    (hs : containsSub sentinel.data (raw_output gen topic context tw).data = true) :
    generate_blog_content gen topic context tw =
      (Except.error (GenError.insufficientContext topic),
       [(first_prompt topic context tw, 1500)]) := by
  unfold raw_output first_prompt at hs
  unfold generate_blog_content first_prompt
  rw [if_neg hne]
  simp only [hs, if_true]

theorem generate_blog_content_clean_cases (gen : String → Nat → String)
    (topic : String) (context : List String) (tw : Nat)
    (hne : context ≠ [])
    (hs : containsSub sentinel.data (raw_output gen topic context tw).data = false) :
    generate_blog_content gen topic context tw =
      (if (pySplit (cleaned_output gen topic context tw)).length > tw then
        (Except.ok (joinSep " " ((pySplit (cleaned_output gen topic context tw)).take tw)),
         [(first_prompt topic context tw, 1500)])
       else if (pySplit (cleaned_output gen topic context tw)).length < tw then
        (Except.ok (joinSep " "
           ((pySplit (cleaned_output gen topic context tw ++ " " ++
              cont_output gen topic context tw)).take tw)),
         [(first_prompt topic context tw, 1500),
          (continuation_prompt (cleaned_output gen topic context tw)
             (tw - (pySplit (cleaned_output gen topic context tw)).length),
           (tw - (pySplit (cleaned_output gen topic context tw)).length) * 2)])
       else
        (Except.ok (cleaned_output gen topic context tw),
         [(first_prompt topic context tw, 1500)])) := by
  unfold raw_output first_prompt at hs
  unfold generate_blog_content cont_output cleaned_output raw_output first_prompt
  rw [if_neg hne]
  simp only [hs, Bool.false_eq_true, if_false]

/-- C1: whenever the raw output of the generation capability contains
the sentinel string "INSUFFICIENT_CONTEXT" anywhere, a call of
`generate_blog_content` on a non-empty context raises the
insufficient-context error carrying the topic and returns no content,
having issued only the single strict-prompt generation call; the check
uses the raw output, before the prompt-echo stripping and whitespace
trimming of `clean_output`. -/
theorem sentinel_aborts_generation (gen : String → Nat → String)
    (topic : String) (context : List String) (tw : Nat)
    (hne : context ≠ [])
    (hs : containsSub sentinel.data (raw_output gen topic context tw).data = true) :
    generate_blog_content gen topic context tw =
      (Except.error (GenError.insufficientContext topic),
       [(first_prompt topic context tw, 1500)]) :=
  generate_blog_content_sentinel_case gen topic context tw hne hs

theorem take_tokens_good (s : String) (n : Nat) :
    ∀ w ∈ (pySplit s).take n, w ≠ "" ∧ ∀ c ∈ w.data, c.isWhitespace = false :=
  fun w hw => pySplit_tokens_good s w (List.take_subset n (pySplit s) hw)

/-- C2: a successful call of `generate_blog_content` returns content of
at most `target_words` whitespace tokens, exactly `target_words` when
the cleaned first-pass output already reached the target, and the word
count `create_blog` persists with the blog is the literal
whitespace-token count of the content. -/
theorem generation_length_convergence :
    (∀ (gen : String → Nat → String) (topic : String) (context : List String)
       (tw : Nat) (content : String) (calls : List (String × Nat)),
       generate_blog_content gen topic context tw = (Except.ok content, calls) →
       (pySplit content).length ≤ tw ∧
       (tw ≤ (pySplit (cleaned_output gen topic context tw)).length →
         (pySplit content).length = tw)) ∧
    (∀ (search : String → Nat → Except String (List (Option String)))
       (gen : String → Nat → String) (topic c : String) (wc sd : Nat)
       (calls : List (String × Nat)),
       create_blog search gen topic = (CreateResult.created c wc sd, calls) →
       wc = (pySplit c).length) := by
  constructor
  · intro gen topic context tw content calls h
    by_cases hctx : context = []
    · subst hctx
      rw [generate_blog_content_nil_context] at h
      exact absurd h (by simp)
    · by_cases hsent : containsSub sentinel.data (raw_output gen topic context tw).data = true
      · rw [generate_blog_content_sentinel_case gen topic context tw hctx hsent] at h
        exact absurd h (by simp)
      · have hs : containsSub sentinel.data (raw_output gen topic context tw).data = false :=
          Bool.eq_false_iff.mpr hsent
        rw [generate_blog_content_clean_cases gen topic context tw hctx hs] at h
        by_cases hgt : (pySplit (cleaned_output gen topic context tw)).length > tw
        · rw [if_pos hgt] at h
          simp only [Prod.mk.injEq, Except.ok.injEq] at h
          obtain ⟨rfl, -⟩ := h
          have hcount : pySplit (joinSep " " ((pySplit (cleaned_output gen topic context tw)).take tw))
              = (pySplit (cleaned_output gen topic context tw)).take tw :=
            pySplit_joinSep _ (take_tokens_good _ tw)
          rw [hcount, List.length_take]
          constructor
          · omega
          · intro _
            omega
        · rw [if_neg hgt] at h
          by_cases hlt : (pySplit (cleaned_output gen topic context tw)).length < tw
          · rw [if_pos hlt] at h
            simp only [Prod.mk.injEq, Except.ok.injEq] at h
            obtain ⟨rfl, -⟩ := h
            have hcount : pySplit (joinSep " "
                ((pySplit (cleaned_output gen topic context tw ++ " " ++
                   cont_output gen topic context tw)).take tw))
                = (pySplit (cleaned_output gen topic context tw ++ " " ++
                   cont_output gen topic context tw)).take tw :=
              pySplit_joinSep _ (take_tokens_good _ tw)
            rw [hcount, List.length_take]
            constructor
            · omega
            · intro hge
              omega
          · rw [if_neg hlt] at h
            simp only [Prod.mk.injEq, Except.ok.injEq] at h
            obtain ⟨rfl, -⟩ := h
            have heq : (pySplit (cleaned_output gen topic context tw)).length = tw := by
              omega
            rw [heq]
            exact ⟨Nat.le_refl tw, fun _ => rfl⟩
  · intro search gen topic c wc sd calls h
    unfold create_blog at h
    by_cases hctx : aggregate_context search topic = []
    · rw [if_pos hctx] at h
      exact absurd h (by simp)
    · rw [if_neg hctx] at h
      rcases hg : generate_blog_content gen topic (aggregate_context search topic) 800
        with ⟨res, gcalls⟩
      rw [hg] at h
      rcases res with e | content
      · rcases e with _ | t
        · simp at h
        · simp at h
      · simp only [Prod.mk.injEq, CreateResult.created.injEq] at h
        obtain ⟨⟨rfl, hwc, -⟩, -⟩ := h
        exact hwc.symm

/-- C5: when the aggregated, deduplicated context over all extracted
search terms is empty, `create_blog` answers the 404 no-relevant-
information outcome and the generation capability is never invoked
(the recorded call list is empty); and `generate_blog_content` itself
rejects an empty context with the no-context error without issuing any
generator call. -/
theorem no_context_terminal :
    (∀ (search : String → Nat → Except String (List (Option String)))
       (gen : String → Nat → String) (topic : String),
       aggregate_context search topic = [] →
       create_blog search gen topic = (CreateResult.noContext, [])) ∧
    (∀ (gen : String → Nat → String) (topic : String) (tw : Nat),
       generate_blog_content gen topic [] tw = (Except.error GenError.noContext, [])) := by
  constructor
  · intro search gen topic hctx
    unfold create_blog
    rw [if_pos hctx]
  · intro gen topic tw
    exact generate_blog_content_nil_context gen topic tw

/-- C6 (amended): when the cleaned first-pass output falls short of the
target, `generate_blog_content` performs exactly one continuation
round: the call list records exactly one further generator invocation,
whose output budget is twice the token shortfall, the result is the
first-pass text concatenated with the continuation output and truncated
to the target token count, and no second continuation happens; the
final token count is the minimum of the target and the combined count,
so it equals the target exactly when the continuation supplies at least
the shortfall, and stays below it otherwise. -/
theorem continuation_single_round (gen : String → Nat → String)
    (topic : String) (context : List String) (tw : Nat)
    (hne : context ≠ [])
    (hs : containsSub sentinel.data (raw_output gen topic context tw).data = false)
    (hlt : (pySplit (cleaned_output gen topic context tw)).length < tw) :
    generate_blog_content gen topic context tw =
      (Except.ok (joinSep " " ((pySplit (cleaned_output gen topic context tw ++ " " ++
          cont_output gen topic context tw)).take tw)),
       [(first_prompt topic context tw, 1500),
        (continuation_prompt (cleaned_output gen topic context tw)
           (tw - (pySplit (cleaned_output gen topic context tw)).length),
         (tw - (pySplit (cleaned_output gen topic context tw)).length) * 2)]) ∧
    (pySplit (joinSep " " ((pySplit (cleaned_output gen topic context tw ++ " " ++
        cont_output gen topic context tw)).take tw))).length =
      min tw ((pySplit (cleaned_output gen topic context tw)).length +
        (pySplit (cont_output gen topic context tw)).length) := by
  constructor
  · rw [generate_blog_content_clean_cases gen topic context tw hne hs]
    rw [if_neg (by omega), if_pos hlt]
  · have hcount : pySplit (joinSep " "
        ((pySplit (cleaned_output gen topic context tw ++ " " ++
           cont_output gen topic context tw)).take tw))
        = (pySplit (cleaned_output gen topic context tw ++ " " ++
           cont_output gen topic context tw)).take tw :=
      pySplit_joinSep _ (take_tokens_good _ tw)
    rw [hcount, List.length_take, pySplit_append_space, List.length_append]

theorem containsSub_false_of_head_notMem (c0 : Char) (rest : List Char) :
    ∀ xs : List Char, c0 ∉ xs → containsSub (c0 :: rest) xs = false := by
  intro xs
  induction xs with
  | nil => intro _; rfl
  | cons x xs ih =>
    intro h
    have hx : (c0 == x) = false := by
      have : c0 ≠ x := fun e => h (by simp [e])
      simp [this]
    have h2 : c0 ∉ xs := fun hmem => h (by simp [hmem])
    show ((c0 :: rest).isPrefixOf (x :: xs) || containsSub (c0 :: rest) xs) = false
    rw [ih h2]
    simp [List.isPrefixOf, hx]

theorem splitOnAux_of_not_contains (sep : List Char) :
    ∀ (fuel : Nat) (xs acc : List Char), xs.length ≤ fuel →
      containsSub sep xs = false → splitOnAux sep fuel xs acc = [acc ++ xs] := by
  intro fuel
  induction fuel with
  | zero => intro xs acc _ _; rfl
  | succ fuel ih =>
    intro xs acc hlen hcon
    cases xs with
    | nil => simp [splitOnAux]
    | cons c cs =>
      have hor : (sep.isPrefixOf (c :: cs) || containsSub sep cs) = false := hcon
      have hparts := Bool.or_eq_false_iff.mp hor
      show (if sep.isPrefixOf (c :: cs) = true then
              acc :: splitOnAux sep fuel ((c :: cs).drop sep.length) []
            else splitOnAux sep fuel cs (acc ++ [c])) = [acc ++ (c :: cs)]
      rw [hparts.1]
      simp only [Bool.false_eq_true, if_false]
      rw [ih cs (acc ++ [c]) (by simp at hlen ⊢; omega) hparts.2]
      simp

theorem pySplitOn_of_not_contains (sep xs : List Char)
    (h : containsSub sep xs = false) : pySplitOn sep xs = [xs] := by
  unfold pySplitOn
  simpa using splitOnAux_of_not_contains sep xs.length xs [] (Nat.le_refl _) h

theorem joinCh_chars :
    ∀ (ts : List (List Char)) (c : Char), c ∈ joinCh ts → (∃ t ∈ ts, c ∈ t) ∨ c = ' '
  | [], c, h => by simp [joinCh] at h
  | [t], c, h => by
    left
    have h' : c ∈ t := h
    exact ⟨t, by simp, h'⟩
  | t :: t2 :: ts, c, h => by
    have h' : c ∈ t ++ ' ' :: joinCh (t2 :: ts) := h
    rcases List.mem_append.mp h' with h1 | h1
    · exact Or.inl ⟨t, by simp, h1⟩
    · rcases List.mem_cons.mp h1 with h2 | h2
      · exact Or.inr h2
      · rcases joinCh_chars (t2 :: ts) c h2 with ⟨u, hu, hcu⟩ | h3
        · exact Or.inl ⟨u, by simp [hu], hcu⟩
        · exact Or.inr h3

theorem joinCh_head_cons (c : Char) (cs : List Char) :
    ∀ ts : List (List Char), ∃ rest, joinCh ((c :: cs) :: ts) = c :: rest := by
  intro ts
  cases ts with
  | nil => exact ⟨cs, rfl⟩
  | cons t2 ts2 => exact ⟨cs ++ ' ' :: joinCh (t2 :: ts2), rfl⟩

theorem joinCh_reverse_head :
    ∀ ts : List (List Char), ts ≠ [] →
      (∀ t ∈ ts, t ≠ [] ∧ ∀ c ∈ t, c.isWhitespace = false) →
      ∃ c rest, (joinCh ts).reverse = c :: rest ∧ c.isWhitespace = false
  | [], h, _ => absurd rfl h
  | [t], _, hg => by
    obtain ⟨hne, hws⟩ := hg t (by simp)
    have hrev : t.reverse ≠ [] := by simpa using hne
    cases hr : t.reverse with
    | nil => exact absurd hr hrev
    | cons c rest =>
      refine ⟨c, rest, hr, ?_⟩
      have : c ∈ t.reverse := by rw [hr]; simp
      exact hws c (List.mem_reverse.mp this)
  | t :: t2 :: ts, _, hg => by
    obtain ⟨c, rest, hr, hcws⟩ := joinCh_reverse_head (t2 :: ts) (by simp)
      (fun u hu => hg u (by simp [hu]))
    have hshape : joinCh (t :: t2 :: ts) = t ++ ' ' :: joinCh (t2 :: ts) := rfl
    refine ⟨c, rest ++ [' '] ++ t.reverse, ?_, hcws⟩
    rw [hshape]
    rw [List.reverse_append, List.reverse_cons, hr]
    simp

theorem map_data_good (ws : List String)
    (h : ∀ w ∈ ws, w ≠ "" ∧ ∀ c ∈ w.data, c.isWhitespace = false) :
    ∀ t ∈ ws.map String.data, t ≠ [] ∧ ∀ c ∈ t, c.isWhitespace = false := by
  intro t ht
  simp only [List.mem_map] at ht
  obtain ⟨w, hw, rfl⟩ := ht
  obtain ⟨h1, h2⟩ := h w hw
  refine ⟨?_, h2⟩
  intro hcon
  apply h1
  apply String.ext
  simpa using hcon

theorem pyStrip_joinSep (ws : List String) (hne : ws ≠ [])
    (h : ∀ w ∈ ws, w ≠ "" ∧ ∀ c ∈ w.data, c.isWhitespace = false) :
    pyStrip (joinSep " " ws) = joinSep " " ws := by
  have hgood := map_data_good ws h
  have hmapne : ws.map String.data ≠ [] := by
    cases ws with
    | nil => exact absurd rfl hne
    | cons w ws' => simp
  have hstrip : (((joinCh (ws.map String.data)).dropWhile Char.isWhitespace).reverse.dropWhile
      Char.isWhitespace).reverse = joinCh (ws.map String.data) := by
    have hhead : ∃ c rest, joinCh (ws.map String.data) = c :: rest ∧ c.isWhitespace = false := by
      cases ws with
      | nil => exact absurd rfl hne
      | cons w ws' =>
        obtain ⟨hwne, hwws⟩ := h w (by simp)
        cases hw : w.data with
        | nil =>
          exact absurd (String.ext (by simpa using hw)) hwne
        | cons c cs =>
          obtain ⟨rest, hrest⟩ := joinCh_head_cons c cs (ws'.map String.data)
          refine ⟨c, rest, by simpa [hw] using hrest, ?_⟩
          exact hwws c (by rw [hw]; simp)
    obtain ⟨c, rest, hshape, hcws⟩ := hhead
    obtain ⟨c2, rest2, hshape2, hcws2⟩ := joinCh_reverse_head (ws.map String.data) hmapne hgood
    rw [hshape] at hshape2 ⊢
    rw [List.dropWhile_cons, if_neg (by simp [hcws])]
    rw [hshape2, List.dropWhile_cons, if_neg (by simp [hcws2]), ← hshape2]
    simp
  unfold pyStrip
  rw [joinSep_space_data, hstrip]
  apply String.ext
  simp [joinSep_space_data]

theorem clean_output_of_no_marker (s : String)
    (hm : containsSub promptMarker.data s.data = false)
    (hstrip : pyStrip s = s) : clean_output s = s := by
  unfold clean_output
  rw [pySplitOn_of_not_contains promptMarker.data s.data hm]
  show pyStrip (String.mk s.data) = s
  have hmk : String.mk s.data = s := rfl
  rw [hmk, hstrip]

/-- A first-pass output of exactly 600 whitespace tokens. -/
def w600text : String := joinSep " " (List.replicate 600 "w")

/-- Generator oracle whose first pass (budget 1500) yields the 600-token
text and whose continuation call yields the empty string. -/
def shortContinuationGen : String → Nat → String :=
  fun _ n => if n = 1500 then w600text else ""

theorem w600_tokens_good :
    ∀ w ∈ List.replicate 600 ("w" : String),
      w ≠ "" ∧ ∀ c ∈ w.data, c.isWhitespace = false := by
  intro w hw
  have hww : w = "w" := List.eq_of_mem_replicate hw
  subst hww
  exact ⟨by decide, by decide⟩

theorem w600_pySplit : pySplit w600text = List.replicate 600 "w" :=
  pySplit_joinSep _ w600_tokens_good

theorem w600_chars : ∀ c ∈ w600text.data, c = 'w' ∨ c = ' ' := by
  intro c hc
  have hc' : c ∈ joinCh ((List.replicate 600 ("w" : String)).map String.data) := by
    have := joinSep_space_data (List.replicate 600 ("w" : String))
    rw [← this]
    exact hc
  rcases joinCh_chars _ c hc' with ⟨t, ht, hct⟩ | h
  · simp only [List.mem_map] at ht
    obtain ⟨w, hw, rfl⟩ := ht
    have hww : w = "w" := List.eq_of_mem_replicate hw
    subst hww
    left
    have : ("w" : String).data = ['w'] := rfl
    rw [this] at hct
    simpa using hct
  · exact Or.inr h

theorem w600_replicate_ne_nil : (List.replicate 600 ("w" : String)) ≠ [] := by
  intro h
  have hlen := congrArg List.length h
  rw [List.length_replicate, List.length_nil] at hlen
  exact absurd hlen (by omega)

theorem w600_no_sentinel : containsSub sentinel.data w600text.data = false := by
  have h1 : sentinel.data = 'I' :: "NSUFFICIENT_CONTEXT".data := rfl
  rw [h1]
  apply containsSub_false_of_head_notMem
  intro hmem
  rcases w600_chars 'I' hmem with h | h <;> exact absurd h (by decide)

theorem w600_no_marker : containsSub promptMarker.data w600text.data = false := by
  have h1 : promptMarker.data = 'W' :: "rite the blog post:".data := rfl
  rw [h1]
  apply containsSub_false_of_head_notMem
  intro hmem
  rcases w600_chars 'W' hmem with h | h <;> exact absurd h (by decide)

theorem w600_clean : clean_output w600text = w600text :=
  clean_output_of_no_marker w600text w600_no_marker
    (pyStrip_joinSep _ w600_replicate_ne_nil w600_tokens_good)

theorem shortgen_raw :
    raw_output shortContinuationGen "t" ["c"] 800 = w600text := rfl

theorem shortgen_cleaned :
    cleaned_output shortContinuationGen "t" ["c"] 800 = w600text := by
  unfold cleaned_output
  rw [shortgen_raw, w600_clean]

theorem shortgen_count :
    (pySplit (cleaned_output shortContinuationGen "t" ["c"] 800)).length = 600 := by
  rw [shortgen_cleaned, w600_pySplit, List.length_replicate]

theorem shortgen_cont :
    cont_output shortContinuationGen "t" ["c"] 800 = "" := by
  unfold cont_output
  rw [shortgen_count]
  rfl

/-- C6 counterexample: a first pass whose cleaned output has exactly 600
whitespace tokens toward a target of 800, with a continuation that
contributes nothing, ends with content of 600 words, not the 800 the
claim asserts for this scenario. -/
theorem continuation_shortfall_counterexample :
    (pySplit (cleaned_output shortContinuationGen "t" ["c"] 800)).length = 600 ∧
    (generate_blog_content shortContinuationGen "t" ["c"] 800).1 = Except.ok w600text ∧
    (pySplit w600text).length = 600 := by
  refine ⟨shortgen_count, ?_, by rw [w600_pySplit, List.length_replicate]⟩
  have hne : (["c"] : List String) ≠ [] := by simp
  have hs : containsSub sentinel.data
      (raw_output shortContinuationGen "t" ["c"] 800).data = false := by
    rw [shortgen_raw]
    exact w600_no_sentinel
  have hcase := generate_blog_content_clean_cases shortContinuationGen "t" ["c"] 800 hne hs
  rw [hcase, shortgen_count]
  rw [if_neg (by omega), if_pos (by omega)]
  show Except.ok (joinSep " " ((pySplit (cleaned_output shortContinuationGen "t" ["c"] 800 ++
      " " ++ cont_output shortContinuationGen "t" ["c"] 800)).take 800)) = Except.ok w600text
  rw [shortgen_cleaned, shortgen_cont, pySplit_append_space, pySplit_empty, w600_pySplit]
  rw [List.append_nil, List.take_of_length_le (by rw [List.length_replicate]; omega)]
  rfl

/-- Companion of `dict_fromkeys` that makes the already-emitted prefix
explicit: keep the elements not yet seen, in order, updating the seen
set as emission proceeds. -/
def dedupSeen : List String → List String → List String
  | [], _ => []
  | x :: xs, seen =>
    if x ∈ seen then dedupSeen xs seen else x :: dedupSeen xs (seen ++ [x])

theorem foldl_dedupAppend_eq :
    ∀ (l acc : List String), List.foldl dedupAppend acc l = acc ++ dedupSeen l acc := by
  intro l
  induction l with
  | nil => intro acc; simp [dedupSeen]
  | cons x xs ih =>
    intro acc
    by_cases hx : x ∈ acc
    · simp only [List.foldl_cons, dedupAppend, if_pos hx, dedupSeen, ih]
    · simp only [List.foldl_cons, dedupAppend, if_neg hx, dedupSeen, ih]
      simp

theorem dedupSeen_eq_spec :
    ∀ (l seen : List String),
      dedupSeen l seen = stableDedupSpec (l.filter (fun y => decide (y ∉ seen))) := by
  intro l
  induction l with
  | nil => intro seen; simp [dedupSeen, stableDedupSpec]
  | cons x xs ih =>
    intro seen
    by_cases hx : x ∈ seen
    · rw [show dedupSeen (x :: xs) seen = dedupSeen xs seen from if_pos hx]
      rw [List.filter_cons_of_neg (by simp [hx])]
      exact ih seen
    · rw [show dedupSeen (x :: xs) seen = x :: dedupSeen xs (seen ++ [x]) from if_neg hx]
      rw [List.filter_cons_of_pos (by simp [hx])]
      have hfilter : List.filter (fun y => decide (y ∉ seen ++ [x])) xs =
          List.filter (fun a => a != x && decide (a ∉ seen)) xs := by
        apply List.filter_congr
        intro y _
        by_cases hy : y ∈ seen <;> by_cases hyx : y = x <;>
          simp [hy, hyx, List.mem_append]
      rw [stableDedupSpec, ih (seen ++ [x]), List.filter_filter, hfilter]

theorem dict_fromkeys_eq_spec (l : List String) :
    dict_fromkeys l = stableDedupSpec l := by
  unfold dict_fromkeys
  rw [foldl_dedupAppend_eq l [], dedupSeen_eq_spec l []]
  simp

theorem foldl_dedupAppend_nodup :
    ∀ (l acc : List String), acc.Nodup → (List.foldl dedupAppend acc l).Nodup := by
  intro l
  induction l with
  | nil => intro acc h; simpa using h
  | cons x xs ih =>
    intro acc h
    by_cases hx : x ∈ acc
    · have hstep : dedupAppend acc x = acc := by simp [dedupAppend, hx]
      rw [List.foldl_cons, hstep]
      exact ih acc h
    · have hstep : dedupAppend acc x = acc ++ [x] := by simp [dedupAppend, hx]
      rw [List.foldl_cons, hstep]
      refine ih (acc ++ [x]) ?_
      simp [List.nodup_append, h, hx]

theorem foldl_dedupAppend_mem :
    ∀ (l acc : List String) (x : String),
      x ∈ List.foldl dedupAppend acc l ↔ x ∈ acc ∨ x ∈ l := by
  intro l
  induction l with
  | nil => intro acc x; simp
  | cons y ys ih =>
    intro acc x
    by_cases hy : y ∈ acc
    · simp only [List.foldl_cons, dedupAppend, if_pos hy, ih]
      constructor
      · rintro (h | h)
        · exact Or.inl h
        · exact Or.inr (by simp [h])
      · rintro (h | h)
        · exact Or.inl h
        · rcases List.mem_cons.mp h with rfl | h2
          · exact Or.inl hy
          · exact Or.inr h2
    · simp only [List.foldl_cons, dedupAppend, if_neg hy, ih]
      simp only [List.mem_append, List.mem_singleton, List.mem_cons]
      tauto

/-- C7: the aggregated context of the generation path is the per-term
retrieval results concatenated in term order and deduplicated by exact
string equality, each distinct passage kept exactly once at its first
occurrence: the code-side `dict_fromkeys` has no duplicates, keeps
exactly the members of the concatenation, and coincides with the
spec-side stable first-occurrence deduplication `stableDedupSpec`; and
`aggregate_context` is by construction `dict_fromkeys` of the per-term
results joined in term order. -/
theorem dedup_stable_first_occurrence :
    (∀ per_term : List (List String),
      dict_fromkeys per_term.flatten = stableDedupSpec per_term.flatten ∧
      (dict_fromkeys per_term.flatten).Nodup ∧
      (∀ x, x ∈ dict_fromkeys per_term.flatten ↔ x ∈ per_term.flatten)) ∧
    (∀ (search : String → Nat → Except String (List (Option String))) (topic : String),
      aggregate_context search topic =
        dict_fromkeys (((extract_search_terms topic).map
          (fun term => get_relevant_context search term 5)).flatten)) := by
  constructor
  · intro per_term
    refine ⟨dict_fromkeys_eq_spec _, foldl_dedupAppend_nodup _ [] (by simp), ?_⟩
    intro x
    unfold dict_fromkeys
    rw [foldl_dedupAppend_mem]
    simp
  · intro search topic
    rfl

/-- C8: `extract_search_terms` lowercases the topic, splits on
whitespace and keeps, in order of appearance and without deduplication
or stemming, exactly the tokens outside the fixed stop-word set: the
result is a sublist of the lowercased token list, contains no stop
word, preserves the multiplicity of every non-stop token, and on the
topic "Explain me about distributed caching" returns exactly
["distributed", "caching"]. -/
theorem extract_terms_stopword_filter :
    (∀ topic : String,
      List.Sublist (extract_search_terms topic) (pySplit (pyLower topic))) ∧
    (∀ topic t : String, t ∈ common_words → t ∉ extract_search_terms topic) ∧
    (∀ topic t : String, t ∉ common_words →
      (extract_search_terms topic).count t = (pySplit (pyLower topic)).count t) ∧
    extract_search_terms "Explain me about distributed caching" =
      ["distributed", "caching"] := by
  refine ⟨?_, ?_, ?_, by decide⟩
  · intro topic
    exact List.filter_sublist _
  · intro topic t ht hmem
    rw [extract_search_terms, List.mem_filter] at hmem
    have h2 := hmem.2
    simp only [Bool.not_eq_true', List.contains, List.elem_eq_mem] at h2
    simp at h2
    exact h2 ht
  · intro topic t ht
    rw [extract_search_terms, List.count_filter]
    simp only [Bool.not_eq_true', List.contains, List.elem_eq_mem]
    simpa using ht

/-- Search oracle that always fails, modelling an exception raised by
the external search capability. -/
def errSearch : String → Nat → Except String (List (Option String)) :=
  fun _ _ => Except.error "search unavailable"

/-- C9 counterexample: an error raised by the search capability during
per-term retrieval is not propagated: `get_relevant_context` catches it
and returns the empty passage list, and `create_blog` then answers the
404 no-relevant-information outcome rather than a server error. -/
theorem search_error_swallowed :
    get_relevant_context errSearch "distributed" 5 = [] ∧
    (create_blog errSearch (fun _ _ => "x") "distributed caching").1 =
      CreateResult.noContext ∧
    (create_blog errSearch (fun _ _ => "x") "distributed caching").1 ≠
      CreateResult.serverError := by
  refine ⟨rfl, ?_, ?_⟩ <;> decide

/-- C9 (amended): within the retrieval stage nothing is propagated as
an error: a search-capability failure is caught and yields the empty
passage list for that term, a hit lacking the content field is skipped
while hits with content are kept in rank order, and a term with zero
passages contributes nothing; a generation-stage failure is propagated:
the sentinel case surfaces through `create_blog` as the distinct 404
insufficient-context outcome. -/
theorem retrieval_skip_policy :
    (∀ (search : String → Nat → Except String (List (Option String)))
       (topic : String) (limit : Nat) (e : String),
       search topic limit = Except.error e →
       get_relevant_context search topic limit = []) ∧
    (∀ (search : String → Nat → Except String (List (Option String)))
       (topic : String) (limit : Nat) (hits : List (Option String)),
       search topic limit = Except.ok hits →
       get_relevant_context search topic limit = hits.filterMap (fun h => h)) ∧
    (∀ (search : String → Nat → Except String (List (Option String)))
       (gen : String → Nat → String) (topic : String),
       aggregate_context search topic ≠ [] →
       containsSub sentinel.data
         (raw_output gen topic (aggregate_context search topic) 800).data = true →
       (create_blog search gen topic).1 = CreateResult.insufficient) := by
  refine ⟨?_, ?_, ?_⟩
  · intro search topic limit e h
    unfold get_relevant_context
    rw [h]
  · intro search topic limit hits h
    unfold get_relevant_context
    rw [h]
  · intro search gen topic hctx hs
    unfold create_blog
    rw [if_neg hctx]
    rw [generate_blog_content_sentinel_case gen topic (aggregate_context search topic) 800
      hctx hs]

/-- Generator oracle that always emits the sentinel. -/
def sentinelGen : String → Nat → String := fun _ _ => "x INSUFFICIENT_CONTEXT y"

theorem sentinel_aborts_generation_witness :
    (["c"] : List String) ≠ [] ∧
    containsSub sentinel.data (raw_output sentinelGen "t" ["c"] 800).data = true ∧
    generate_blog_content sentinelGen "t" ["c"] 800 =
      (Except.error (GenError.insufficientContext "t"),
       [(first_prompt "t" ["c"] 800, 1500)]) :=
  ⟨by decide, by decide,
   sentinel_aborts_generation sentinelGen "t" ["c"] 800 (by decide) (by decide)⟩

/-- Generator oracle whose first pass has five tokens and whose
continuation is empty. -/
def lenGen : String → Nat → String :=
  fun _ n => if n = 1500 then "a b c d e" else ""

/-- Search oracle returning a single passage. -/
def ctxSearch : String → Nat → Except String (List (Option String)) :=
  fun _ _ => Except.ok [some "c"]

theorem generation_length_convergence_witness :
    (generate_blog_content lenGen "t" ["c"] 3 =
      (Except.ok "a b c", (generate_blog_content lenGen "t" ["c"] 3).2)) ∧
    ((pySplit "a b c").length ≤ 3 ∧ (pySplit "a b c").length = 3) ∧
    (create_blog ctxSearch lenGen "caching" =
      (CreateResult.created "a b c d e" 5 1, (create_blog ctxSearch lenGen "caching").2)) ∧
    5 = (pySplit "a b c d e").length :=
  have h1 : generate_blog_content lenGen "t" ["c"] 3 =
      (Except.ok "a b c", (generate_blog_content lenGen "t" ["c"] 3).2) := by
    rw [Prod.ext_iff]
    exact ⟨by decide, rfl⟩
  have h2 : create_blog ctxSearch lenGen "caching" =
      (CreateResult.created "a b c d e" 5 1, (create_blog ctxSearch lenGen "caching").2) := by
    rw [Prod.ext_iff]
    exact ⟨by decide, rfl⟩
  ⟨h1,
   ⟨(generation_length_convergence.1 lenGen "t" ["c"] 3 "a b c" _ h1).1,
    (generation_length_convergence.1 lenGen "t" ["c"] 3 "a b c" _ h1).2 (by decide)⟩,
   h2,
   generation_length_convergence.2 ctxSearch lenGen "caching" "a b c d e" 5 1 _ h2⟩

theorem chunk_text_roundtrip_witness :
    (∀ w ∈ pySplit "a b c d e f", w.length + 1 ≤ 5) ∧
    joinSep " " (chunk_text "a b c d e f" 5) = joinSep " " (pySplit "a b c d e f") :=
  ⟨by decide, chunk_text_roundtrip "a b c d e f" 5 (by decide)⟩

theorem chunk_text_size_bound_witness :
    "aaaaaa" ∈ chunk_text "aaaaaa b" 3 ∧
    ("aaaaaa".length ≤ 3 ∨ ("aaaaaa" ∈ pySplit "aaaaaa b" ∧ 3 < "aaaaaa".length)) ∧
    chunk_text "" 3 = [] :=
  ⟨by decide, (chunk_text_size_bound "aaaaaa b" 3).1 "aaaaaa" (by decide),
   (chunk_text_size_bound "" 3).2⟩

/-- Search oracle that finds nothing. -/
def emptySearch : String → Nat → Except String (List (Option String)) :=
  fun _ _ => Except.ok []

theorem no_context_terminal_witness :
    aggregate_context emptySearch "caching" = [] ∧
    create_blog emptySearch (fun _ _ => "x") "caching" = (CreateResult.noContext, []) ∧
    generate_blog_content (fun _ _ => "x") "t" [] 7 =
      (Except.error GenError.noContext, []) :=
  ⟨by decide,
   no_context_terminal.1 emptySearch (fun _ _ => "x") "caching" (by decide),
   no_context_terminal.2 (fun _ _ => "x") "t" 7⟩

/-- Generator oracle whose first pass has three tokens and whose
continuation supplies four more. -/
def contGen : String → Nat → String :=
  fun _ n => if n = 1500 then "a b c" else "d e f g"

theorem continuation_single_round_witness :
    (["c"] : List String) ≠ [] ∧
    containsSub sentinel.data (raw_output contGen "t" ["c"] 5).data = false ∧
    (pySplit (cleaned_output contGen "t" ["c"] 5)).length < 5 ∧
    (generate_blog_content contGen "t" ["c"] 5 =
      (Except.ok (joinSep " " ((pySplit (cleaned_output contGen "t" ["c"] 5 ++ " " ++
          cont_output contGen "t" ["c"] 5)).take 5)),
       [(first_prompt "t" ["c"] 5, 1500),
        (continuation_prompt (cleaned_output contGen "t" ["c"] 5)
           (5 - (pySplit (cleaned_output contGen "t" ["c"] 5)).length),
         (5 - (pySplit (cleaned_output contGen "t" ["c"] 5)).length) * 2)]) ∧
     (pySplit (joinSep " " ((pySplit (cleaned_output contGen "t" ["c"] 5 ++ " " ++
         cont_output contGen "t" ["c"] 5)).take 5))).length =
       min 5 ((pySplit (cleaned_output contGen "t" ["c"] 5)).length +
         (pySplit (cont_output contGen "t" ["c"] 5)).length)) :=
  ⟨by decide, by decide, by decide,
   continuation_single_round contGen "t" ["c"] 5 (by decide) (by decide) (by decide)⟩

theorem extract_terms_stopword_filter_witness :
    ("the" ∈ common_words) ∧ "the" ∉ extract_search_terms "the cache" ∧
    ("cache" ∉ common_words) ∧
    (extract_search_terms "the cache").count "cache" =
      (pySplit (pyLower "the cache")).count "cache" :=
  ⟨by decide, extract_terms_stopword_filter.2.1 "the cache" "the" (by decide),
   by decide, extract_terms_stopword_filter.2.2.1 "the cache" "cache" (by decide)⟩

/-- Search oracle returning hits with and without a content field. -/
def mixedSearch : String → Nat → Except String (List (Option String)) :=
  fun _ _ => Except.ok [some "p", none, some "q"]

/-- Search oracle returning one passage, used to drive the generation
stage. -/
def oneSearch : String → Nat → Except String (List (Option String)) :=
  fun _ _ => Except.ok [some "ctx"]

theorem retrieval_skip_policy_witness :
    errSearch "t" 5 = Except.error "search unavailable" ∧
    get_relevant_context errSearch "t" 5 = [] ∧
    mixedSearch "t" 5 = Except.ok [some "p", none, some "q"] ∧
    get_relevant_context mixedSearch "t" 5 =
      ([some "p", none, some "q"].filterMap (fun h => h)) ∧
    aggregate_context oneSearch "caching" ≠ [] ∧
    containsSub sentinel.data
      (raw_output sentinelGen "caching" (aggregate_context oneSearch "caching") 800).data
      = true ∧
    (create_blog oneSearch sentinelGen "caching").1 = CreateResult.insufficient :=
  ⟨rfl, retrieval_skip_policy.1 errSearch "t" 5 "search unavailable" rfl,
   rfl, retrieval_skip_policy.2.1 mixedSearch "t" 5 [some "p", none, some "q"] rfl,
   by decide, by decide,
   retrieval_skip_policy.2.2 oneSearch sentinelGen "caching" (by decide) (by decide)⟩

theorem chunk_text_empty_chunk_witness :
    (pySplit "aaaa b" = ["aaaa", "b"] ∧ 3 < "aaaa".length + 1 ∧
      (∃ rest, chunk_text "aaaa b" 3 = "" :: "aaaa" :: rest ∧ "" ∉ ("aaaa" :: rest))) ∧
    (pySplit "a b" = ["a", "b"] ∧ "a".length + 1 ≤ 3 ∧ "" ∉ chunk_text "a b" 3) :=
  ⟨⟨by decide, by decide,
    (chunk_text_empty_chunk "aaaa b" 3).1 "aaaa" ["b"] (by decide) (by decide)⟩,
   ⟨by decide, by decide,
    (chunk_text_empty_chunk "a b" 3).2.1 "a" ["b"] (by decide) (by decide)⟩⟩
